import Mathlib

/-!
Verification of youch-core: a shallow embedding of the error-parsing and
source-window slicing pipeline (`src/source_file.ts` and the error parser),
with theorems checking the natural-language specification against it.

Machine integers are modelled as `Int`/`Nat` (JavaScript numbers here are
always small integers: line numbers, buffer sizes, indices), strings as
`String`, fallible operations as `Except`/`Option`.
-/

namespace YouchCore

/-! ## Data model: chunks (src/types.ts, `Chunk`) -/

/-- A source-file chunk: one line of text paired with its 1-based absolute
line number (`src/types.ts`). -/
structure Chunk where
  chunk : String
  lineNumber : Int
  deriving Repr, DecidableEq

/-! ## String splitting

`contents.split(/\n|\r\n/)` from `SourceFile.slice` (source_file.ts line 74).
The regex alternation matches, at each position, either a lone `\n` or the
pair `\r\n` (a `\r` immediately followed by `\n` starts no `\n` match, so the
second alternative consumes both characters). -/

/-- Auxiliary worker for `splitLines`: `acc` holds the characters of the
current piece in reverse. -/
def splitLinesAux : List Char → List Char → List String
  | [], acc => [String.mk acc.reverse]
  | '\r' :: '\n' :: rest, acc => String.mk acc.reverse :: splitLinesAux rest []
  | '\n' :: rest, acc => String.mk acc.reverse :: splitLinesAux rest []
  | c :: rest, acc => splitLinesAux rest (c :: acc)

/-- JavaScript `contents.split(/\n|\r\n/)`: split on every lone `\n` and on
every `\r\n` pair. Always yields at least one (possibly empty) piece. -/
def splitLines (s : String) : List String :=
  splitLinesAux s.data []

theorem splitLinesAux_ne_nil (cs acc : List Char) : splitLinesAux cs acc ≠ [] := by
  induction cs, acc using splitLinesAux.induct with
  | _ => simp_all [splitLinesAux]

theorem splitLines_ne_nil (s : String) : splitLines s ≠ [] :=
  splitLinesAux_ne_nil _ _

theorem splitLines_length_pos (s : String) : 0 < (splitLines s).length :=
  List.length_pos.mpr (splitLines_ne_nil s)

/-! ## JavaScript `Array.prototype.slice` -/

/-- Resolve one `Array.prototype.slice` index argument against a length:
negative indices count from the end (clamped at 0), non-negative indices are
clamped at the length. -/
def jsSliceBound (len : Nat) (i : Int) : Nat :=
  if i < 0 then ((len : Int) + i).toNat else min i.toNat len

/-- JavaScript `l.slice(start, stop)` on arrays. -/
def jsSlice {α : Type} (l : List α) (start stop : Int) : List α :=
  let s := jsSliceBound l.length start
  let e := jsSliceBound l.length stop
  (l.drop s).take (e - s)

/-! ## `SourceFile.slice` (src/source_file.ts lines 62–145) -/

/-- `Math.ceil((bufferSize - 1) / 2)` (source_file.ts line 92). For natural
`n`, `⌈n / 2⌉ = (n + 1) / 2`, applied to `n = bufferSize - 1`; for
`bufferSize = 0` the JavaScript value `Math.ceil(-1/2)` is `-0 = 0`, matching
the truncated natural subtraction. -/
def chunkSize (bufferSize : Nat) : Nat :=
  (bufferSize - 1 + 1) / 2

/-- The start index computed by `SourceFile.slice` (source_file.ts lines
100–109): start `chunkSize` lines before the requested line, clamped at 0,
then shifted further towards the start when fewer than `chunkSize` lines
remain after the requested line. -/
def sliceStart (contentSize : Nat) (lineNumber : Int) (cs : Nat) : Int :=
  let chunkSize : Int := cs
  let startIndex : Int :=
    if chunkSize ≥ lineNumber then 0 else lineNumber - chunkSize - 1
  if (contentSize : Int) - lineNumber < chunkSize then
    max (startIndex - (chunkSize - ((contentSize : Int) - lineNumber))) 0
  else
    startIndex

/-- The chunk list produced by `SourceFile.slice` (source_file.ts lines
74–144) once the loaded/empty checks have passed: split the contents into
lines, compute the window `[startIndex, endIndex)` and map each line to a
`Chunk` carrying its 1-based absolute line number. -/
def sliceChunks (contents : String) (lineNumber : Int) (bufferSize : Nat) : List Chunk :=
  let lines := splitLines contents
  let contentSize := lines.length
  let cs : Int := chunkSize bufferSize
  let startIndex := sliceStart contentSize lineNumber (chunkSize bufferSize)
  let sourceIndex := lineNumber - 1
  let startRemainder := startIndex - sourceIndex + cs
  let endIndex := startRemainder + cs + lineNumber
  (jsSlice lines startIndex endIndex).mapIdx fun i chunk =>
    { chunk := chunk, lineNumber := startIndex + i + 1 }

/-- `SourceFile.slice` (source_file.ts lines 62–145) including its guard
clauses, over the instance state left by the constructor and `load`:
`loaded` is the `#loaded` flag and `contents` the `#contents` field
(`none` models `undefined`). A thrown error is modelled as `.error` with the
thrown message; JavaScript's `if (!this.#contents)` is falsy both for
`undefined` and for the empty string. -/
def SourceFile.slice (loaded : Bool) (contents : Option String)
    (lineNumber : Int) (bufferSize : Nat) : Except String (Option (List Chunk)) :=
  if loaded = false then
    .error "Cannot slice source file. Make sure to call \"load\" method first"
  else
    match contents with
    | none => .ok none
    | some c =>
      if c = "" then .ok none
      else .ok (some (sliceChunks c lineNumber bufferSize))

/-! ### Structural lemmas about the windowing arithmetic -/

theorem sliceStart_nonneg (C : Nat) (L : Int) (cs : Nat) : 0 ≤ sliceStart C L cs := by
  simp only [sliceStart]
  split_ifs <;> omega

theorem sliceStart_lt (C : Nat) (L : Int) (cs : Nat) (hC : 0 < C) :
    sliceStart C L cs < C := by
  simp only [sliceStart]
  split_ifs <;> omega

theorem sliceStart_le (C : Nat) (L : Int) (cs : Nat) :
    sliceStart C L cs ≤ max ((C : Int) - (2 * cs + 1)) 0 := by
  simp only [sliceStart]
  split_ifs <;> omega

/-- `mapIdx` only depends on the pointwise behaviour of its function. -/
theorem mapIdx_congr {α β : Type} (l : List α) (f g : Nat → α → β)
    (h : ∀ i a, f i a = g i a) : l.mapIdx f = l.mapIdx g := by
  induction l generalizing f g with
  | nil => rfl
  | cons a l ih =>
      simp only [List.mapIdx_cons, h]
      exact congrArg _ (ih _ _ fun i a => h (i + 1) a)

/-- Normal form of `sliceChunks`: the window always starts at `sliceStart`
and spans `2 * chunkSize + 1` lines (the source's `endIndex` equals
`startIndex + 2 * chunkSize + 1` by algebra on lines 122–128). -/
theorem sliceChunks_normal (contents : String) (L : Int) (b : Nat) :
    sliceChunks contents L b =
      (((splitLines contents).drop
            (sliceStart (splitLines contents).length L (chunkSize b)).toNat).take
          (2 * chunkSize b + 1)).mapIdx
        fun i chunk =>
          { chunk := chunk,
            lineNumber :=
              sliceStart (splitLines contents).length L (chunkSize b) + (i : Int) + 1 } := by
  have hs0 : 0 ≤ sliceStart (splitLines contents).length L (chunkSize b) :=
    sliceStart_nonneg _ _ _
  simp only [sliceChunks, jsSlice, jsSliceBound]
  congr 1
  set lines := splitLines contents with hlines
  set cs := chunkSize b with hcs
  set s := sliceStart lines.length L cs with hsdef
  set e : Int := s - (L - 1) + (cs : Int) + (cs : Int) + L with hedef
  have h1 : ¬ s < 0 := by omega
  have h2 : ¬ e < 0 := by omega
  simp only [h1, h2, if_false]
  have htn : e.toNat = s.toNat + (2 * cs + 1) := by omega
  rw [htn]
  by_cases h : s.toNat ≤ lines.length
  · rw [min_eq_left h]
    by_cases h2 : s.toNat + (2 * cs + 1) ≤ lines.length
    · rw [min_eq_left h2]
      congr 1
      omega
    · rw [min_eq_right (by omega : lines.length ≤ s.toNat + (2 * cs + 1))]
      have hlen : (lines.drop s.toNat).length = lines.length - s.toNat := by
        simp [List.length_drop]
      rw [List.take_of_length_le (by omega), List.take_of_length_le (by omega)]
  · rw [min_eq_right (by omega : lines.length ≤ s.toNat)]
    rw [List.drop_length, List.drop_eq_nil_of_le (by omega : lines.length ≤ s.toNat)]
    simp

/-- The chunk list is never empty: the window start is strictly below the
(positive) number of lines. -/
theorem sliceChunks_ne_nil (contents : String) (L : Int) (b : Nat) :
    sliceChunks contents L b ≠ [] := by
  rw [sliceChunks_normal]
  have hpos := splitLines_length_pos contents
  have hlt := sliceStart_lt (splitLines contents).length L (chunkSize b) hpos
  have hs0 := sliceStart_nonneg (splitLines contents).length L (chunkSize b)
  simp only [ne_eq, List.mapIdx_eq_nil_iff, List.take_eq_nil_iff, not_or]
  refine ⟨by omega, ?_⟩
  simp only [ne_eq, List.drop_eq_nil_iff, not_le]
  omega

/-- Every produced chunk carries an in-bounds 1-based line number and the
corresponding literal line of the file. -/
theorem sliceChunks_mem (contents : String) (L : Int) (b : Nat) :
    ∀ ch ∈ sliceChunks contents L b,
      1 ≤ ch.lineNumber ∧ ch.lineNumber ≤ ((splitLines contents).length : Int) ∧
        (splitLines contents)[(ch.lineNumber - 1).toNat]? = some ch.chunk := by
  rw [sliceChunks_normal]
  intro ch hch
  have hs0 := sliceStart_nonneg (splitLines contents).length L (chunkSize b)
  set lines := splitLines contents with hlines
  set s := sliceStart lines.length L (chunkSize b) with hsdef
  obtain ⟨i, hi, heq⟩ := List.exists_of_mem_mapIdx hch
  simp only [List.length_take, List.length_drop, lt_min_iff] at hi
  have hidx : s.toNat + i < lines.length := by omega
  have hchunk : lines[(s.toNat + i)]?
      = some (((lines.drop s.toNat).take (2 * chunkSize b + 1)).get ⟨i, by
          simp only [List.length_take, List.length_drop, lt_min_iff]; omega⟩) := by
    rw [← List.getElem?_drop]
    rw [← List.getElem?_take_of_lt (show i < 2 * chunkSize b + 1 by omega)]
    exact List.getElem?_eq_getElem _
  rw [← heq]
  dsimp only
  refine ⟨by omega, by omega, ?_⟩
  rw [show ((s + (i : Int) + 1) - 1).toNat = s.toNat + i from by omega]
  exact hchunk

theorem sliceStart_centered (C : Nat) (L : Int) (h1 : 5 < L) (h2 : L ≤ (C : Int) - 5) :
    sliceStart C L 5 = L - 6 := by
  simp only [sliceStart]
  split_ifs <;> omega

theorem sliceStart_one (C : Nat) : sliceStart C 1 5 = 0 := by
  simp only [sliceStart]
  split_ifs <;> omega

theorem sliceStart_last (C : Nat) : sliceStart C C 5 = max ((C : Int) - 11) 0 := by
  simp only [sliceStart]
  split_ifs <;> omega

/-- C1: with buffer size `W = 11` over contents of `C` lines and a 1-based
target line `L`: when `C ≥ W` the chunk list has exactly `W` entries, and
otherwise it is the entire file; when `5 < L ≤ C − 5` the window is the `W`
contiguous lines centred on `L`; line 1 yields lines `1..W` (or fewer) and
line `C` the final `W` lines (or fewer); and the chunks always carry
strictly increasing, contiguous 1-based absolute line numbers matching the
file's lines. -/
theorem slice_window_eleven (contents : String) (L : Int) (hL : 1 ≤ L) :
    (11 ≤ (splitLines contents).length → (sliceChunks contents L 11).length = 11)
    ∧ ((splitLines contents).length < 11 →
        sliceChunks contents L 11 =
          (splitLines contents).mapIdx fun i c => { chunk := c, lineNumber := (i : Int) + 1 })
    ∧ (5 < L → L ≤ ((splitLines contents).length : Int) - 5 →
        sliceChunks contents L 11 =
          (((splitLines contents).drop (L - 6).toNat).take 11).mapIdx
            fun i c => { chunk := c, lineNumber := L - 5 + (i : Int) })
    ∧ (L = 1 →
        sliceChunks contents L 11 =
          ((splitLines contents).take 11).mapIdx
            fun i c => { chunk := c, lineNumber := (i : Int) + 1 })
    ∧ (L = ((splitLines contents).length : Int) →
        sliceChunks contents L 11 =
          (((splitLines contents).drop ((splitLines contents).length - 11)).take 11).mapIdx
            fun i c =>
              { chunk := c,
                lineNumber := (((splitLines contents).length - 11 : Nat) : Int) + (i : Int) + 1 })
    ∧ (∀ (i : Nat) (c : Chunk), (sliceChunks contents L 11)[i]? = some c →
        1 ≤ c.lineNumber ∧ c.lineNumber ≤ ((splitLines contents).length : Int) ∧
          (splitLines contents)[(c.lineNumber - 1).toNat]? = some c.chunk)
    ∧ (∀ (i : Nat) (c c' : Chunk), (sliceChunks contents L 11)[i]? = some c →
        (sliceChunks contents L 11)[i + 1]? = some c' →
          c'.lineNumber = c.lineNumber + 1) := by
  have hc : chunkSize 11 = 5 := rfl
  have hCpos : 0 < (splitLines contents).length := splitLines_length_pos contents
  have hmem := sliceChunks_mem contents L 11
  have hs0 := sliceStart_nonneg (splitLines contents).length L 5
  have hsle := sliceStart_le (splitLines contents).length L 5
  refine ⟨?_, ?_, ?_, ?_, ?_, ?_, ?_⟩
  · -- C ≥ 11: exact length 11
    intro h11
    rw [sliceChunks_normal, hc]
    simp only [List.length_mapIdx, List.length_take, List.length_drop]
    have : (sliceStart (splitLines contents).length L 5).toNat ≤
        (splitLines contents).length - 11 := by omega
    omega
  · -- C < 11: the entire file
    intro h11
    rw [sliceChunks_normal, hc]
    have hz : sliceStart (splitLines contents).length L 5 = 0 := by omega
    rw [hz, Int.toNat_zero, List.drop_zero,
      List.take_of_length_le (by omega : (splitLines contents).length ≤ 2 * 5 + 1)]
    exact mapIdx_congr _ _ _ fun i a => by simp
  · -- centred window
    intro h5 hC5
    rw [sliceChunks_normal, hc, sliceStart_centered _ _ h5 hC5]
    exact mapIdx_congr _ _ _ fun i a => by
      simp only [Chunk.mk.injEq, true_and]
      omega
  · -- first line
    intro h1
    subst h1
    rw [sliceChunks_normal, hc, sliceStart_one]
    rw [Int.toNat_zero, List.drop_zero]
    exact mapIdx_congr _ _ _ fun i a => by simp
  · -- last line
    intro hlast
    rw [sliceChunks_normal, hc, hlast, sliceStart_last]
    have htn : (max (((splitLines contents).length : Int) - 11) 0).toNat =
        (splitLines contents).length - 11 := by omega
    rw [htn]
    exact mapIdx_congr _ _ _ fun i a => by
      simp only [Chunk.mk.injEq, true_and]
      omega
  · -- in-bounds, matching line numbers
    intro i c hget
    exact hmem c (List.getElem?_mem hget)
  · -- contiguous line numbers
    intro i c c' hget hget'
    rw [sliceChunks_normal, hc] at hget hget'
    simp only [List.getElem?_mapIdx] at hget hget'
    rcases h1 : (((splitLines contents).drop
        (sliceStart (splitLines contents).length L 5).toNat).take (2 * 5 + 1))[i]? with _ | a
    · rw [h1] at hget; simp at hget
    · rcases h2 : (((splitLines contents).drop
          (sliceStart (splitLines contents).length L 5).toNat).take (2 * 5 + 1))[i + 1]? with _ | a'
      · rw [h2] at hget'; simp at hget'
      · rw [h1] at hget
        rw [h2] at hget'
        simp only [Option.map_some'] at hget hget'
        cases hget
        cases hget'
        simp only
        omega

/-- C1 witness: a 13-line file, requesting line 8 (`5 < 8 ≤ 13 − 5`), yields
the 11 lines 3–13 centred on line 8. -/
theorem slice_window_eleven_witness :
    sliceChunks "a\nb\nc\nd\ne\nf\ng\nh\ni\nj\nk\nl\nm" 8 11 =
      [⟨"c", 3⟩, ⟨"d", 4⟩, ⟨"e", 5⟩, ⟨"f", 6⟩, ⟨"g", 7⟩, ⟨"h", 8⟩,
        ⟨"i", 9⟩, ⟨"j", 10⟩, ⟨"k", 11⟩, ⟨"l", 12⟩, ⟨"m", 13⟩] := by
  have h := (slice_window_eleven "a\nb\nc\nd\ne\nf\ng\nh\ni\nj\nk\nl\nm" 8
      (by norm_num)).2.2.1 (by norm_num) (by decide)
  rw [h]
  rfl

/-- C9: after a completed load, slicing yields the absent value exactly when
the contents are absent or the empty string, and a (necessarily non-empty)
chunk list exactly when non-empty contents are available. -/
theorem slice_absent (contents : Option String) (L : Int) (b : Nat) :
    (SourceFile.slice true contents L b = .ok none ↔ contents = none ∨ contents = some "")
    ∧ (∀ c : String, contents = some c → c ≠ "" →
        ∃ chunks : List Chunk, SourceFile.slice true contents L b = .ok (some chunks)
          ∧ chunks ≠ []) := by
  constructor
  · cases contents with
    | none => simp [SourceFile.slice]
    | some c =>
        by_cases hc : c = ""
        · subst hc; simp [SourceFile.slice]
        · simp [SourceFile.slice, hc]
  · rintro c rfl hc
    exact ⟨sliceChunks c L b, by simp [SourceFile.slice, hc], sliceChunks_ne_nil c L b⟩

/-- C9 witness: empty contents slice to the absent value; the two-line file
`"x\ny"` slices to a non-empty chunk list. -/
theorem slice_absent_witness :
    SourceFile.slice true (some "") 3 11 = .ok none ∧
      ∃ chunks : List Chunk,
        SourceFile.slice true (some "x\ny") 2 11 = .ok (some chunks) ∧ chunks ≠ [] :=
  ⟨(slice_absent (some "") 3 11).1.mpr (Or.inr rfl),
    (slice_absent (some "x\ny") 2 11).2 "x\ny" rfl (by decide)⟩

/-- C10: calling `slice` before `load` always throws the fixed error message;
after load it never throws, and for a line number beyond the file's line
count it still returns a non-empty window of existing lines clamped to the
file's bounds. -/
theorem slice_load_guard (contents : Option String) (L : Int) (b : Nat) :
    (SourceFile.slice false contents L b =
        .error "Cannot slice source file. Make sure to call \"load\" method first")
    ∧ (∃ r, SourceFile.slice true contents L b = .ok r)
    ∧ (∀ c : String, contents = some c → c ≠ "" → ((splitLines c).length : Int) < L →
        ∃ chunks : List Chunk, SourceFile.slice true contents L b = .ok (some chunks)
          ∧ chunks ≠ []
          ∧ ∀ ch ∈ chunks, 1 ≤ ch.lineNumber ∧ ch.lineNumber ≤ ((splitLines c).length : Int)
              ∧ (splitLines c)[(ch.lineNumber - 1).toNat]? = some ch.chunk) := by
  refine ⟨by simp [SourceFile.slice], ?_, ?_⟩
  · cases contents with
    | none => exact ⟨none, by simp [SourceFile.slice]⟩
    | some c =>
        by_cases hc : c = ""
        · exact ⟨none, by simp [SourceFile.slice, hc]⟩
        · exact ⟨some (sliceChunks c L b), by simp [SourceFile.slice, hc]⟩
  · rintro c rfl hc _
    exact ⟨sliceChunks c L b, by simp [SourceFile.slice, hc], sliceChunks_ne_nil c L b,
      sliceChunks_mem c L b⟩

/-- C10 witness: slicing unloaded state throws; slicing line 100 of the
two-line file `"x\ny"` still returns in-bounds lines. -/
theorem slice_load_guard_witness :
    (SourceFile.slice false (some "x") 1 11 =
        .error "Cannot slice source file. Make sure to call \"load\" method first")
    ∧ ∃ chunks : List Chunk,
        SourceFile.slice true (some "x\ny") 100 11 = .ok (some chunks)
          ∧ chunks ≠ []
          ∧ ∀ ch ∈ chunks, 1 ≤ ch.lineNumber ∧ ch.lineNumber ≤ ((splitLines "x\ny").length : Int)
              ∧ (splitLines "x\ny")[(ch.lineNumber - 1).toNat]? = some ch.chunk :=
  ⟨(slice_load_guard (some "x") 1 11).1,
    (slice_load_guard (some "x\ny") 100 11).2.2 "x\ny" rfl (by decide) (by decide)⟩

/-! ## JavaScript value domain for the error parser (src/parser.ts)

Thrown values are arbitrary JavaScript values. We model the relevant value
universe: primitives, plus plain or error objects living in an explicit heap
(`List JsObj`, a value `JsVal.ref a` is the object at address `a`), so that
shared and circular object graphs are representable. Field lists model own
enumerable string-keyed properties in insertion order. The modelled classes
are plain objects, `Error`, `SyntaxError`, and `Exception` (from
`@poppinss/exception`, which extends `Error`). -/

inductive JsClass where
  | plain
  | errorCls
  | syntaxErrorCls
  | exceptionCls
  deriving Repr, DecidableEq

/-- `instanceof Error` for the modelled classes (`Exception` and
`SyntaxError` both extend `Error`). -/
def JsClass.isError : JsClass → Bool
  | .plain => false
  | .errorCls => true
  | .syntaxErrorCls => true
  | .exceptionCls => true

inductive JsVal where
  | null
  | undefined
  | bool (b : Bool)
  | num (n : Int)
  | str (s : String)
  | bigint (n : Int)
  | ref (a : Nat)
  deriving Repr, DecidableEq

structure JsObj where
  cls : JsClass
  fields : List (String × JsVal)
  deriving Repr, DecidableEq

/-- Own-property lookup. -/
def JsObj.lookupField (o : JsObj) (k : String) : Option JsVal :=
  (o.fields.find? (fun f => f.1 = k)).map (fun f => f.2)

/-- `'k' in o` restricted to own properties. -/
def JsObj.hasField (o : JsObj) (k : String) : Bool :=
  (o.lookupField k).isSome

/-- JavaScript truthiness of a value. -/
def truthy : JsVal → Bool
  | .null => false
  | .undefined => false
  | .bool b => b
  | .num n => n ≠ 0
  | .str s => s ≠ ""
  | .bigint n => n ≠ 0
  | .ref _ => true

/-- `String(v)`. Modelled subset: primitives print canonically and objects
print as the default `Object.prototype.toString`; custom `toString`
overrides are not modelled (the parser only stringifies the `hint`, `help`
and `code` fields, which are strings in practice). -/
def jsToString : JsVal → String
  | .null => "null"
  | .undefined => "undefined"
  | .bool b => if b then "true" else "false"
  | .num n => toString n
  | .str s => s
  | .bigint n => toString n
  | .ref _ => "[object Object]"

/-! ## `JSON.stringify`

Modelled subset: primitives, strings (with escaping of quote, backslash and
control characters `\n`, `\r`, `\t`), and objects (own enumerable fields in
insertion order, fields whose value serializes to `undefined` are skipped).
BigInt values throw `TypeError`, and a reference cycle throws `TypeError`,
exactly as in JavaScript; the cycle check tracks the path of object
addresses currently being serialized, so acyclic sharing is allowed. Fuel
bounds the recursion depth; `jsonStringify` supplies `heap.length + 1` fuel,
which the path-based cycle check can never exhaust (every recursion step
pushes a fresh heap address onto the path). A dangling address (never
produced by JavaScript) is treated as a serialization failure. -/

def jsonEscapeChar (c : Char) : String :=
  if c = '"' then "\\\""
  else if c = '\\' then "\\\\"
  else if c = '\n' then "\\n"
  else if c = '\r' then "\\r"
  else if c = '\t' then "\\t"
  else String.singleton c

def jsonQuote (s : String) : String :=
  "\"" ++ String.join (s.data.map jsonEscapeChar) ++ "\""

/-- Serialize an object's fields left to right with the given
value-serializer: a field whose value serializes to `undefined` is skipped,
the others become quoted `"key":value` members. -/
def stringifyFields (rec : JsVal → Except String (Option String)) :
    List (String × JsVal) → Except String (List String)
  | [] => .ok []
  | (k, v) :: rest => do
      let sv ← rec v
      let tail ← stringifyFields rec rest
      match sv with
      | none => .ok tail
      | some s => .ok ((jsonQuote k ++ ":" ++ s) :: tail)

def stringifyVal (heap : List JsObj) : Nat → List Nat → JsVal → Except String (Option String)
  | 0, _, _ => .error "out of fuel"
  | fuel + 1, path, v =>
    match v with
    | .null => .ok (some "null")
    | .undefined => .ok none
    | .bool b => .ok (some (if b then "true" else "false"))
    | .num n => .ok (some (toString n))
    | .str s => .ok (some (jsonQuote s))
    | .bigint _ => .error "TypeError: Do not know how to serialize a BigInt"
    | .ref a =>
      if a ∈ path then .error "TypeError: Converting circular structure to JSON"
      else
        match heap[a]? with
        | none => .error "dangling reference"
        | some obj => do
            let parts ← stringifyFields (stringifyVal heap fuel (a :: path)) obj.fields
            .ok (some ("\x7b" ++ String.intercalate "," parts ++ "\x7d"))

def jsonStringify (heap : List JsObj) (v : JsVal) : Except String (Option String) :=
  stringifyVal heap (heap.length + 1) [] v

/-! ## `ErrorParser.#normalizeError` (parser.ts lines 92–105) -/

/-- The hint attached by `#normalizeError` to a synthesized error
(parser.ts lines 102–103, the `error.help` assignment). -/
def errorHelpText : String :=
  "To get as much information as possible from your errors, make sure to throw Error objects. See <a href=\"https://developer.mozilla.org/en-US/docs/Web/JavaScript/Reference/Global_Objects/Error\">https://developer.mozilla.org/en-US/docs/Web/JavaScript/Reference/Global_Objects/Error</a> for more information."

/-- The outcome of `#normalizeError`: either the thrown value itself (an
`Error` instance or an object with `message` and `stack` fields, used
as-is) or a freshly synthesized `Exception`. The synthesized error's
runtime-captured stack-trace text is abstracted as `stack`. -/
inductive NormErr where
  | original (a : Nat)
  | synth (message : String) (stack : Option String)
  deriving Repr, DecidableEq

/-- `#normalizeError` (parser.ts lines 92–105): an `Error` instance or an
object with both `message` and `stack` properties is returned as-is;
otherwise a new `Exception` is created whose message is
`JSON.stringify(source)` (the empty message when that is `undefined`) and
whose `help` is the fixed advisory text; a `JSON.stringify` `TypeError`
(circular structure, BigInt) propagates. `synthStack` abstracts the stack
text the runtime would capture for the fresh `Exception`. -/
def normalizeError (heap : List JsObj) (synthStack : Option String) (v : JsVal) :
    Except String NormErr :=
  match v with
  | .ref a =>
    match heap[a]? with
    | some obj =>
      if obj.cls.isError then .ok (.original a)
      else if obj.hasField "message" && obj.hasField "stack" then .ok (.original a)
      else (jsonStringify heap v).map fun s => .synth (s.getD "") synthStack
    | none => (jsonStringify heap v).map fun s => .synth (s.getD "") synthStack
  | _ => (jsonStringify heap v).map fun s => .synth (s.getD "") synthStack

/-- Whether `#normalizeError` uses the value as-is: `source instanceof
Error`, or `typeof source === 'object' && source && 'message' in source &&
'stack' in source` (parser.ts lines 93–99). -/
def isErrorLike (heap : List JsObj) (v : JsVal) : Bool :=
  match v with
  | .ref a =>
    match heap[a]? with
    | some obj => obj.cls.isError || (obj.hasField "message" && obj.hasField "stack")
    | none => false
  | _ => false

/-! ## Error property access for the report assembly (parser.ts 335–349)

Own-property access on the normalized error. For genuine error objects the
`message`/`name` prototype defaults of `Error` are supplied when the own
field is absent; `hint`, `help`, `code`, `cause` and `stack` are own
properties (V8 errors carry `stack` as an own property). A synthesized
`Exception` carries `message`, `name = "Exception"`, the assigned `help`
text, and its captured `stack`. -/

def errGetField (heap : List JsObj) : NormErr → String → Option JsVal
  | .original a, k => (heap[a]?).bind fun obj => obj.lookupField k
  | .synth m st, k =>
    if k = "message" then some (.str m)
    else if k = "name" then some (.str "Exception")
    else if k = "help" then some (.str errorHelpText)
    else if k = "stack" then st.map .str
    else none

/-- `error instanceof SyntaxError` (parser.ts line 319). -/
def isSyntaxErrorInstance (heap : List JsObj) : NormErr → Bool
  | .original a => (heap[a]?).any fun obj => obj.cls = .syntaxErrorCls
  | .synth _ _ => false

/-- `error.message` with the `Error.prototype.message = ""` default. -/
def messageVal (heap : List JsObj) (ne : NormErr) : JsVal :=
  match ne with
  | .original a =>
    match heap[a]? with
    | some obj =>
      match obj.lookupField "message" with
      | some w => w
      | none => if obj.cls.isError then .str "" else .undefined
    | none => .undefined
  | .synth m _ => .str m

/-- `error.name` with the per-class prototype default. -/
def nameVal (heap : List JsObj) (ne : NormErr) : JsVal :=
  match ne with
  | .original a =>
    match heap[a]? with
    | some obj =>
      match obj.lookupField "name" with
      | some w => w
      | none =>
        match obj.cls with
        | .errorCls => .str "Error"
        | .syntaxErrorCls => .str "SyntaxError"
        | .exceptionCls => .str "Exception"
        | .plain => .undefined
    | none => .undefined
  | .synth _ _ => .str "Exception"

/-- The report's `hint` (parser.ts lines 339–344):
`'hint' in error && error.hint ? String(error.hint) : 'help' in error &&
error.help ? String(error.help) : undefined`. -/
def hintOf (heap : List JsObj) (ne : NormErr) : Option String :=
  if (errGetField heap ne "hint").elim false truthy then
    (errGetField heap ne "hint").map jsToString
  else if (errGetField heap ne "help").elim false truthy then
    (errGetField heap ne "help").map jsToString
  else none

/-- The report's `code` (parser.ts line 345):
`'code' in error ? String(error.code) : undefined`. -/
def codeOf (heap : List JsObj) (ne : NormErr) : Option String :=
  (errGetField heap ne "code").map jsToString

/-- The report's `cause` (parser.ts line 346): plain `error.cause` access. -/
def causeOf (heap : List JsObj) (ne : NormErr) : JsVal :=
  (errGetField heap ne "cause").getD .undefined

/-- The report's `stack` (parser.ts line 347): plain `error.stack` access. -/
def stackValOf (heap : List JsObj) (ne : NormErr) : JsVal :=
  (errGetField heap ne "stack").getD .undefined

/-- `error.stack` viewed as a string for `#parseSyntaxError`; a non-string
`stack` value is treated as absent (either way the split on it fails). -/
def stackStr (heap : List JsObj) (ne : NormErr) : Option String :=
  match errGetField heap ne "stack" with
  | some (.str s) => some s
  | _ => none

/-! ## Frame classification (parser.ts lines 47–53, 171–212) -/

/-- JavaScript `s.startsWith(pre)`. -/
def jsStartsWith (s pre : String) : Bool :=
  pre.data.isPrefixOf s.data

/-- Substring search for JavaScript `String.prototype.includes`. -/
def includesAux (pat : List Char) : List Char → Bool
  | [] => pat.isPrefixOf ([] : List Char)
  | c :: rest => pat.isPrefixOf (c :: rest) || includesAux pat rest

/-- JavaScript `s.includes(sub)`. -/
def jsIncludes (s sub : String) : Bool :=
  includesAux sub.data s.data

/-- `#nativeFramesIdentifiers` (parser.ts line 47). -/
def nativeFramesIdentifiers : List String := ["node:", "ext:"]

/-- `#bunNativeIdentifier` (parser.ts line 53). -/
def bunNativeIdentifier : String := "native"

inductive FrameType where
  | native
  | module
  | app
  deriving Repr, DecidableEq

inductive FileType where
  | fs
  | http
  | https
  deriving Repr, DecidableEq

/-- `#getFrameType` (parser.ts lines 194–201). -/
def getFrameType (fileName : String) : FrameType :=
  if (nativeFramesIdentifiers.any fun identifier => jsIncludes fileName identifier)
      || fileName = bunNativeIdentifier then .native
  else if jsIncludes fileName "node_modules/" then .module
  else .app

/-- `#getFrameSourceType` (parser.ts lines 206–212). -/
def getFrameSourceType (fileName : String) : FileType :=
  if jsStartsWith fileName "http://" then .http
  else if jsStartsWith fileName "https://" then .https
  else .fs

/-- `#toUnixSlash` (parser.ts lines 174–177): backslashes become forward
slashes unless the path starts with the extended-length marker `\\?\`. -/
def toUnixSlash (fileName : String) : String :=
  if jsStartsWith fileName "\\\\?\\" then fileName
  else String.mk (fileName.data.map fun c => if c = '\\' then '/' else c)

/-- `#normalizeFileName` (parser.ts lines 184–189). The Node.js builtin
`fileURLToPath` is an external platform function, passed in as a
parameter. -/
def normalizeFileName (fileURLToPath : String → String) (fileName : String) : String :=
  if jsStartsWith fileName "file:" then toUnixSlash (fileURLToPath fileName)
  else toUnixSlash fileName

/-! ## Stack frames -/

/-- A raw frame as returned by the external `error-stack-parser-es`
library (treated as a black box; its output is a parameter of `parse`). -/
structure ESFrame where
  fileName : Option String := none
  functionName : Option String := none
  lineNumber : Option Int := none
  columnNumber : Option Int := none
  source : Option String := none
  args : Option (List JsVal) := none
  deriving Repr, DecidableEq

/-- An enhanced frame of the final report (src/types.ts `StackFrame`). -/
structure StackFrame where
  fileName : Option String := none
  functionName : Option String := none
  lineNumber : Option Int := none
  columnNumber : Option Int := none
  raw : Option String := none
  args : Option (List JsVal) := none
  source : Option (List Chunk) := none
  type : Option FrameType := none
  fileType : Option FileType := none
  deriving Repr, DecidableEq

/-! ## `#parseSyntaxError` (parser.ts lines 136–158) -/

/-- Worker for `jsSplit`: scan `l`, cutting at each (leftmost,
non-overlapping) occurrence of the non-empty separator `sep`; `acc` holds
the current piece reversed, `fuel` bounds the scan by the input length. -/
def jsSplitAux (sep : List Char) : Nat → List Char → List Char → List String
  | _, [], acc => [String.mk acc.reverse]
  | 0, l, acc => [String.mk (acc.reverse ++ l)]
  | fuel + 1, c :: rest, acc =>
    if sep.isPrefixOf (c :: rest) then
      String.mk acc.reverse :: jsSplitAux sep fuel ((c :: rest).drop sep.length) []
    else
      jsSplitAux sep fuel rest (c :: acc)

/-- JavaScript `s.split(sep)` for a non-empty literal separator. -/
def jsSplit (s sep : String) : List String :=
  jsSplitAux sep.data s.data.length s.data []

/-- The common JavaScript whitespace characters trimmed by `Number`. -/
def jsWhitespace (c : Char) : Bool :=
  c = ' ' || c = '\t' || c = '\n' || c = '\r'

/-- Decimal digit-string value; `none` for empty or non-digit input. -/
def digitsToNat? (ds : List Char) : Option Nat :=
  if ds ≠ [] && ds.all Char.isDigit then
    some (ds.foldl (fun acc c => acc * 10 + (c.toNat - '0'.toNat)) 0)
  else none

/-- JavaScript `Number(s)` restricted to the forms that occur as line
numbers: optional surrounding whitespace, optional sign, decimal digits;
the empty (or all-whitespace) string converts to 0. Other numeric forms
(fractions, exponents, hex, `Infinity`) are outside the modelled subset and
conservatively map to `NaN` (`none`). -/
def jsNumber (s : String) : Option Int :=
  match ((s.data.dropWhile jsWhitespace).reverse.dropWhile jsWhitespace).reverse with
  | [] => some 0
  | '-' :: ds => (digitsToNat? ds).map fun n => -(n : Int)
  | '+' :: ds => (digitsToNat? ds).map fun n => (n : Int)
  | ds => (digitsToNat? ds).map fun n => (n : Int)

/-- `#parseSyntaxError` over the error's `stack` string: split the first
line on `:`, treat the last token as the line number and the rejoined rest
as the file name; yield one synthetic frame if the file name is non-empty
and the line number is not `NaN`, and no frame otherwise. A missing stack
makes the destructured first line `undefined` and the subsequent
`.split(':')` throw, modelled as `.error`. -/
def parseSyntaxError (stack : Option String) : Except String (List ESFrame) :=
  match stack with
  | none => .error "TypeError: Cannot read properties of undefined (reading split)"
  | some st =>
    let sourceIdentifier := (jsSplit st "\n").headD ""
    let tokens := jsSplit sourceIdentifier ":"
    let lineNumber := jsNumber (tokens.getLastD "")
    let fileName := String.intercalate ":" tokens.dropLast
    match lineNumber with
    | some n =>
      if fileName ≠ "" then
        .ok [{ fileName := some fileName, lineNumber := some n,
               source := some sourceIdentifier }]
      else .ok []
    | none => .ok []

/-! ## Source loading and caching (parser.ts lines 28–41, 107–125, 214–240)

The parser's loader receives the (partially enhanced) stack frame and
returns either `undefined` or `{ contents }`; we model it as a pure
function `StackFrame → Option String` (the `contents` string).  The cache
`#sourceFiles` maps a file name to the `SourceFile` built from loaded
contents; we store the contents string.  `enhanceFrames` additionally
returns the final cache and the trace of loader invocations
`(fileName, loader returned contents?)`, making the loader-call effects of
the embedded code explicit. -/

/-- Modelled from the spec: the `SourceFile` constructed by `#getSource`
from loader-provided contents (`new SourceFile(contents)` followed by
`slice(lineNumber, 11)`). This `SourceFile` variant (no separate `load`
step; `slice` returns no window when the contents are empty) is exercised
by the repository's second source-file test group but its source file is
not in `src/`; per §4.6 of the spec it delegates windowing to the same
SourceWindow algorithm, embedded here as `sliceChunks`. -/
def sourceFileSlice (contents : String) (lineNumber : Int) (bufferSize : Nat) :
    Option (List Chunk) :=
  if contents = "" then none else some (sliceChunks contents lineNumber bufferSize)

/-- `ErrorParser.fsSourceLoader` (parser.ts lines 28–41): return no contents
unless the frame has a file name, `fileType === 'fs'` and
`type !== 'native'`; otherwise read the file, yielding no contents on a read
failure. The filesystem is the external parameter `fs` (`fs name = none`
models a failed read). -/
def fsSourceLoader (fs : String → Option String) (frame : StackFrame) : Option String :=
  match frame.fileName with
  | none => none
  | some fn =>
    if fn = "" then none
    else if frame.fileType ≠ some .fs then none
    else if frame.type = some .native then none
    else fs fn

/-- `#getSource` (parser.ts lines 111–125) as a cache transition: a cache
hit slices the cached source file; otherwise the loader is invoked, and
only a returned `{ contents }` object is cached (a loader returning
`undefined` caches nothing). Returns the chunks, the new cache, and the
loader-invocation events. -/
def getSource (loader : StackFrame → Option String) (cache : List (String × String))
    (frame : StackFrame) :
    Option (List Chunk) × List (String × String) × List (String × Bool) :=
  let key := frame.fileName.getD ""
  match cache.find? (fun e => e.1 = key) with
  | some e => (sourceFileSlice e.2 (frame.lineNumber.getD 1) 11, cache, [])
  | none =>
    match loader frame with
    | some contents =>
      (sourceFileSlice contents (frame.lineNumber.getD 1) 11,
        (key, contents) :: cache, [(key, true)])
    | none => (none, cache, [(key, false)])

/-- The pass-through frame for a raw frame (parser.ts lines 219–223): all
raw fields kept, the raw `source` text stored as `raw`. -/
def baseFrame (f : ESFrame) : StackFrame :=
  { fileName := f.fileName, functionName := f.functionName,
    lineNumber := f.lineNumber, columnNumber := f.columnNumber,
    args := f.args, raw := f.source }

/-- The classified frame (parser.ts lines 230–232): normalized file name
plus origin and location classification, before the source lookup. -/
def classifyFrame (fileURLToPath : String → String) (f : ESFrame) : StackFrame :=
  { baseFrame f with
    fileName := some (normalizeFileName fileURLToPath (f.fileName.getD "")),
    type := some (getFrameType (normalizeFileName fileURLToPath (f.fileName.getD ""))),
    fileType := some (getFrameSourceType (normalizeFileName fileURLToPath (f.fileName.getD ""))) }

theorem classifyFrame_fileName (fileURLToPath : String → String) (f : ESFrame) :
    (classifyFrame fileURLToPath f).fileName
      = some (normalizeFileName fileURLToPath (f.fileName.getD "")) := rfl

/-- `#enhanceFrames` (parser.ts lines 217–240): each raw frame's `source`
text becomes `raw`; a frame without a (truthy) file name is passed through
unclassified; otherwise the file name is normalized, the frame is
classified, and `#getSource` is consulted — unconditionally, for every
frame with a file name. Returns the enhanced frames (in order), the final
cache, and the concatenated loader-invocation trace. -/
def enhanceFrames (fileURLToPath : String → String) (loader : StackFrame → Option String) :
    List (String × String) → List ESFrame →
      List StackFrame × List (String × String) × List (String × Bool)
  | cache, [] => ([], cache, [])
  | cache, f :: rest =>
    if f.fileName.getD "" = "" then
      let r := enhanceFrames fileURLToPath loader cache rest
      (baseFrame f :: r.1, r.2)
    else
      let g := getSource loader cache (classifyFrame fileURLToPath f)
      let r := enhanceFrames fileURLToPath loader g.2.1 rest
      ({ classifyFrame fileURLToPath f with source := g.1 } :: r.1, r.2.1, g.2.2 ++ r.2.2)

/-- `#applyOffset` (parser.ts lines 164–169): `if (this.#offset)` — a
configured non-zero offset drops that many leading frames (`Array.slice`),
zero or unset drops nothing. -/
def applyOffset (offset : Option Nat) (frames : List ESFrame) : List ESFrame :=
  match offset with
  | some k => if k ≠ 0 then frames.drop k else frames
  | none => frames

/-! ## `ErrorParser.parse` (parser.ts lines 294–356) -/

/-- The assembled report (src/types.ts `ParsedError`): property values read
off the normalized error are `JsVal`s (`.undefined` models an absent
optional property). -/
structure ParsedError where
  message : JsVal
  name : JsVal
  frames : List StackFrame
  hint : Option String
  code : Option String
  cause : JsVal
  stack : JsVal
  raw : NormErr
  deriving Repr, DecidableEq

/-- The initial frame set (parser.ts line 319): `error instanceof
SyntaxError ? this.#parseSyntaxError(error) : []`. -/
def initialSynFrames (heap : List JsObj) (error : NormErr) : Except String (List ESFrame) :=
  cond (isSyntaxErrorInstance heap error) (parseSyntaxError (stackStr heap error)) (pure [])

/-- `parse` (parser.ts lines 294–356) in the parser's default state: no
registered pre-processors or post-processors (their fold and loop are
no-ops). External collaborators are parameters: `fileURLToPath` (Node
builtin), `loader` (the configured source loader), `esParsed` (the frame
list produced by the black-box `error-stack-parser-es` for the normalized
error), and `synthStack` (the runtime-captured stack of a synthesized
`Exception`). Normalization and the syntax-error special case are the only
failure points. -/
def parse (fileURLToPath : String → String) (loader : StackFrame → Option String)
    (offset : Option Nat) (esParsed : List ESFrame) (heap : List JsObj)
    (synthStack : Option String) (v : JsVal) : Except String ParsedError := do
  let error ← normalizeError heap synthStack v
  let synFrames ← initialSynFrames heap error
  let esFrames := applyOffset offset (synFrames ++ esParsed)
  let enhanced := enhanceFrames fileURLToPath loader [] esFrames
  pure
    { message := messageVal heap error, name := nameVal heap error,
      frames := enhanced.1, hint := hintOf heap error, code := codeOf heap error,
      cause := causeOf heap error, stack := stackValOf heap error, raw := error }

/-! ## Theorems about frame classification (claim C8) -/

theorem http_https_prefix_incompat (s : String) :
    ¬(jsStartsWith s "http://" = true ∧ jsStartsWith s "https://" = true) := by
  rintro ⟨h1, h2⟩
  rw [jsStartsWith, List.isPrefixOf_iff_prefix] at h1 h2
  rcases List.prefix_or_prefix_of_prefix h1 h2 with h | h
  · exact absurd h (by decide)
  · exact absurd h (by decide)

/-- C8: origin classification is `native` exactly when the identifier
contains `node:` or `ext:` or equals `native`; else `module` exactly when
it contains `node_modules/`; else `app` (native takes precedence).
Independently the location kind is `http`/`https` exactly on the
corresponding prefix, and `fs` otherwise; both functions are total, so the
six cases tile all strings. -/
theorem frame_classification (s : String) :
    (getFrameType s = .native ↔
      jsIncludes s "node:" = true ∨ jsIncludes s "ext:" = true ∨ s = "native")
    ∧ (getFrameType s = .module ↔
      ¬(jsIncludes s "node:" = true ∨ jsIncludes s "ext:" = true ∨ s = "native")
        ∧ jsIncludes s "node_modules/" = true)
    ∧ (getFrameType s = .app ↔
      ¬(jsIncludes s "node:" = true ∨ jsIncludes s "ext:" = true ∨ s = "native")
        ∧ jsIncludes s "node_modules/" = false)
    ∧ (getFrameSourceType s = .http ↔ jsStartsWith s "http://" = true)
    ∧ (getFrameSourceType s = .https ↔ jsStartsWith s "https://" = true)
    ∧ (getFrameSourceType s = .fs ↔
        jsStartsWith s "http://" = false ∧ jsStartsWith s "https://" = false) := by
  have hinc := http_https_prefix_incompat s
  simp only [getFrameType, getFrameSourceType, nativeFramesIdentifiers, bunNativeIdentifier,
    List.any_cons, List.any_nil, Bool.or_false]
  refine ⟨?_, ?_, ?_, ?_, ?_, ?_⟩ <;>
    · split_ifs with h₁ h₂ <;>
        simp_all <;>
        rcases Bool.eq_false_or_eq_true (jsIncludes s "node:") with h | h <;>
        rcases Bool.eq_false_or_eq_true (jsIncludes s "ext:") with h' | h' <;>
        simp_all

/-- C8 witness: concrete classifications through the theorem. -/
theorem frame_classification_witness :
    getFrameType "node_modules/node:x" = .native
      ∧ getFrameType "/a/node_modules/b.js" = .module
      ∧ getFrameType "/app/a.js" = .app
      ∧ getFrameSourceType "https://h/x" = .https :=
  ⟨(frame_classification "node_modules/node:x").1.mpr (Or.inl (by decide)),
    (frame_classification "/a/node_modules/b.js").2.1.mpr ⟨by decide, by decide⟩,
    (frame_classification "/app/a.js").2.2.1.mpr ⟨by decide, by decide⟩,
    (frame_classification "https://h/x").2.2.2.2.1.mpr (by decide)⟩

/-! ## Monadic computation rules for `Except` used in the proofs -/

theorem except_bind_ok {ε α β : Type} (a : α) (f : α → Except ε β) :
    (Except.ok a : Except ε α) >>= f = f a := rfl

theorem except_bind_error {ε α β : Type} (e : ε) (f : α → Except ε β) :
    (Except.error e : Except ε α) >>= f = Except.error e := rfl

theorem except_pure_eq {ε α : Type} (a : α) : (pure a : Except ε α) = Except.ok a := rfl

/-! ## Theorems about offsetting and frame order (claim C7) -/

/-- What `#enhanceFrames` does to one raw frame, field by field: every
field of the raw frame survives unchanged (its `source` text under the name
`raw`), except that a present, non-empty file name is normalized. -/
def enhancesTo (fileURLToPath : String → String) (sf : StackFrame) (es : ESFrame) : Prop :=
  sf.raw = es.source ∧ sf.functionName = es.functionName ∧
    sf.lineNumber = es.lineNumber ∧ sf.columnNumber = es.columnNumber ∧
    sf.args = es.args ∧
    sf.fileName = (if es.fileName.getD "" = "" then es.fileName
      else some (normalizeFileName fileURLToPath (es.fileName.getD "")))

theorem enhanceFrames_spec (futp : String → String) (loader : StackFrame → Option String)
    (frames : List ESFrame) :
    ∀ cache : List (String × String),
      (enhanceFrames futp loader cache frames).1.length = frames.length
      ∧ ∀ (i : Nat) (es : ESFrame), frames[i]? = some es →
          ∃ sf, (enhanceFrames futp loader cache frames).1[i]? = some sf
            ∧ enhancesTo futp sf es := by
  induction frames with
  | nil => intro cache; simp [enhanceFrames]
  | cons f rest ih =>
    intro cache
    simp only [enhanceFrames]
    by_cases hf : f.fileName.getD "" = ""
    · rw [if_pos hf]
      refine ⟨by simpa using (ih cache).1, ?_⟩
      intro i es h
      match i with
      | 0 =>
        simp only [List.getElem?_cons_zero, Option.some.injEq] at h
        subst h
        refine ⟨_, List.getElem?_cons_zero, ?_⟩
        exact ⟨rfl, rfl, rfl, rfl, rfl, by simp [baseFrame, classifyFrame, hf]⟩
      | i + 1 =>
        simp only [List.getElem?_cons_succ] at h ⊢
        exact (ih cache).2 i es h
    · rw [if_neg hf]
      refine ⟨by simpa using (ih _).1, ?_⟩
      intro i es h
      match i with
      | 0 =>
        simp only [List.getElem?_cons_zero, Option.some.injEq] at h
        subst h
        refine ⟨_, List.getElem?_cons_zero, ?_⟩
        exact ⟨rfl, rfl, rfl, rfl, rfl, by simp [baseFrame, classifyFrame, hf]⟩
      | i + 1 =>
        simp only [List.getElem?_cons_succ] at h ⊢
        exact (ih _).2 i es h

/-- C7: the configured offset drops exactly the first `k` extracted frames
(`k = 0` or an unset offset drops nothing, over-long offsets yield the
empty sequence), and enhancement is a pointwise, order-preserving map: the
report's frame sequence corresponds index by index to the offset extractor
output, never reordered. -/
theorem frames_offset_order (futp : String → String) (loader : StackFrame → Option String) :
    (∀ (k : Nat) (frames : List ESFrame), applyOffset (some k) frames = frames.drop k)
    ∧ (∀ frames : List ESFrame, applyOffset none frames = frames)
    ∧ (∀ (k : Nat) (frames : List ESFrame), frames.length ≤ k →
        applyOffset (some k) frames = [])
    ∧ (∀ (cache : List (String × String)) (frames : List ESFrame),
        (enhanceFrames futp loader cache frames).1.length = frames.length)
    ∧ (∀ (cache : List (String × String)) (frames : List ESFrame) (i : Nat) (es : ESFrame),
        frames[i]? = some es →
          ∃ sf, (enhanceFrames futp loader cache frames).1[i]? = some sf
            ∧ enhancesTo futp sf es)
    ∧ (∀ (offset : Option Nat) (esParsed : List ESFrame) (heap : List JsObj)
        (synthStack : Option String) (v : JsVal) (ne : NormErr) (report : ParsedError),
        normalizeError heap synthStack v = .ok ne →
        isSyntaxErrorInstance heap ne = false →
        parse futp loader offset esParsed heap synthStack v = .ok report →
        report.frames = (enhanceFrames futp loader [] (applyOffset offset esParsed)).1) := by
  refine ⟨?_, fun _ => rfl, ?_, ?_, ?_, ?_⟩
  · intro k frames
    by_cases hk : k = 0
    · subst hk; simp [applyOffset]
    · simp [applyOffset, hk]
  · intro k frames h
    by_cases hk : k = 0
    · subst hk
      simp_all [applyOffset, List.length_eq_zero]
    · simp [applyOffset, hk, List.drop_eq_nil_of_le h]
  · intro cache frames
    exact (enhanceFrames_spec futp loader frames cache).1
  · intro cache frames i es h
    exact (enhanceFrames_spec futp loader frames cache).2 i es h
  · intro offset esParsed heap synthStack v ne report hne hsyn hp
    have hco : initialSynFrames heap ne = .ok [] := by
      unfold initialSynFrames
      rw [hsyn]
      rfl
    simp only [parse, hne, hco, except_bind_ok, except_pure_eq, List.nil_append] at hp
    cases hp
    rfl

/-- C7 witness: offsetting three frames by 2 keeps only the enhanced third
frame. -/
theorem frames_offset_order_witness :
    applyOffset (some 2)
        [{ functionName := some "a" }, { functionName := some "b" },
          { functionName := some "c" }] =
      [({ functionName := some "c" } : ESFrame)]
    ∧ ∀ report : ParsedError,
        parse id (fun _ => none) (some 2)
            [{ functionName := some "a" }, { functionName := some "b" },
              { functionName := some "c" }] [] none (.bool true) = .ok report →
          report.frames =
            (enhanceFrames id (fun _ => none) []
              (applyOffset (some 2)
                [{ functionName := some "a" }, { functionName := some "b" },
                  { functionName := some "c" }])).1 :=
  ⟨by
    rw [(frames_offset_order id (fun _ => none)).1 2]
    rfl,
    fun report hp =>
      (frames_offset_order id (fun _ => none)).2.2.2.2.2 (some 2) _ [] none (.bool true)
        (.synth "true" none) report (by rfl) (by rfl) hp⟩

/-! ## Theorems about error normalization totality (claim C4) -/

/-- `#normalizeError` either returns the value as-is (exactly when it is
error-like) or defers to `JSON.stringify`. -/
theorem normalizeError_cases (heap : List JsObj) (synthStack : Option String) (v : JsVal) :
    (isErrorLike heap v = true ∧ ∃ a, v = .ref a
        ∧ normalizeError heap synthStack v = .ok (.original a))
    ∨ (isErrorLike heap v = false ∧ normalizeError heap synthStack v
        = (jsonStringify heap v).map fun s => .synth (s.getD "") synthStack) := by
  cases v with
  | ref a =>
    cases hobj : heap[a]? with
    | none =>
      right
      exact ⟨by simp [isErrorLike, hobj], by simp [normalizeError, hobj]⟩
    | some obj =>
      by_cases hcls : obj.cls.isError = true
      · left
        exact ⟨by simp [isErrorLike, hobj, hcls], a, rfl,
          by simp [normalizeError, hobj, hcls]⟩
      · by_cases hms : (obj.hasField "message" && obj.hasField "stack") = true
        · left
          refine ⟨by simp [isErrorLike, hobj, hms], a, rfl, ?_⟩
          simp only [normalizeError, hobj]
          rw [if_neg (by simp [hcls]), if_pos hms]
        · right
          refine ⟨by simp_all [isErrorLike, hobj], ?_⟩
          simp only [normalizeError, hobj]
          rw [if_neg (by simp [hcls]), if_neg (by simp [hms])]
  | null => exact Or.inr ⟨rfl, rfl⟩
  | undefined => exact Or.inr ⟨rfl, rfl⟩
  | bool b => exact Or.inr ⟨rfl, rfl⟩
  | num n => exact Or.inr ⟨rfl, rfl⟩
  | str s => exact Or.inr ⟨rfl, rfl⟩
  | bigint n => exact Or.inr ⟨rfl, rfl⟩

/-- C4 counterexample: a circular object graph (an object whose `self`
field refers back to itself) makes `#normalizeError` — and hence `parse`
with no registered processors — throw the `JSON.stringify` circular
`TypeError`; normalization is not total. -/
theorem normalize_total_counterexample :
    normalizeError [⟨.plain, [("self", .ref 0)]⟩] none (.ref 0)
        = .error "TypeError: Converting circular structure to JSON"
      ∧ parse id (fun _ => none) none [] [⟨.plain, [("self", .ref 0)]⟩] none (.ref 0)
        = .error "TypeError: Converting circular structure to JSON" :=
  ⟨rfl, rfl⟩

/-- C4 (amended): normalization succeeds on every error-like value (an
`Error` instance or an object with `message` and `stack` fields) and on
every other value whose JSON serialization succeeds; it fails exactly when
the value is not error-like and `JSON.stringify` throws (circular
structures, BigInt). Consequently `parse`, with no registered processors,
succeeds on a non-error-like value if and only if its JSON serialization
succeeds. -/
theorem normalize_total_amended (heap : List JsObj) (synthStack : Option String) (v : JsVal) :
    (isErrorLike heap v = true → ∃ ne, normalizeError heap synthStack v = .ok ne)
    ∧ (∀ s : Option String, jsonStringify heap v = .ok s → isErrorLike heap v = false →
        normalizeError heap synthStack v = .ok (.synth (s.getD "") synthStack))
    ∧ (∀ e : String, normalizeError heap synthStack v = .error e →
        isErrorLike heap v = false ∧ jsonStringify heap v = .error e)
    ∧ (isErrorLike heap v = false →
        ∀ (futp : String → String) (loader : StackFrame → Option String)
          (offset : Option Nat) (esParsed : List ESFrame),
          ((∃ r, parse futp loader offset esParsed heap synthStack v = .ok r)
            ↔ ∃ s, jsonStringify heap v = .ok s)) := by
  rcases normalizeError_cases heap synthStack v with ⟨he, a, hv, hok⟩ | ⟨he, heq⟩
  · refine ⟨fun _ => ⟨_, hok⟩, ?_, ?_, ?_⟩
    · intro s _ hfalse; rw [he] at hfalse; cases hfalse
    · intro e herr; rw [hok] at herr; cases herr
    · intro hfalse; rw [he] at hfalse; cases hfalse
  · refine ⟨?_, ?_, ?_, ?_⟩
    · intro htrue; rw [he] at htrue; cases htrue
    · intro s hs _
      rw [heq, hs]
      rfl
    · intro e herr
      refine ⟨he, ?_⟩
      rw [heq] at herr
      cases hjs : jsonStringify heap v with
      | ok s => rw [hjs] at herr; cases herr
      | error e' => rw [hjs] at herr; cases herr; rfl
    · intro _ futp loader offset esParsed
      constructor
      · rintro ⟨r, hr⟩
        cases hjs : jsonStringify heap v with
        | ok s => exact ⟨s, rfl⟩
        | error e' =>
          have hnorm : normalizeError heap synthStack v = .error e' := by
            rw [heq, hjs]; rfl
          simp only [parse, hnorm, except_bind_error] at hr
          cases hr
      · rintro ⟨s, hs⟩
        have hnorm : normalizeError heap synthStack v = .ok (.synth (s.getD "") synthStack) := by
          rw [heq, hs]; rfl
        have hco : initialSynFrames heap (.synth (s.getD "") synthStack) = .ok [] := rfl
        exact ⟨{ message := messageVal heap (.synth (s.getD "") synthStack),
                 name := nameVal heap (.synth (s.getD "") synthStack),
                 frames := (enhanceFrames futp loader [] (applyOffset offset esParsed)).1,
                 hint := hintOf heap (.synth (s.getD "") synthStack),
                 code := codeOf heap (.synth (s.getD "") synthStack),
                 cause := causeOf heap (.synth (s.getD "") synthStack),
                 stack := stackValOf heap (.synth (s.getD "") synthStack),
                 raw := .synth (s.getD "") synthStack },
          by simp only [parse, hnorm, hco, except_bind_ok, except_pure_eq, List.nil_append]⟩

/-- C4 witness: a plain record (no `message`/`stack`) serializes and
normalizes; through the amended theorem `parse` succeeds on it. -/
theorem normalize_total_witness :
    normalizeError [⟨.plain, [("x", .num 1)]⟩] none (.ref 0)
        = .ok (.synth "\x7b\"x\":1\x7d" none)
      ∧ ∃ r, parse id (fun _ => none) none [] [⟨.plain, [("x", .num 1)]⟩] none (.ref 0)
          = .ok r :=
  ⟨(normalize_total_amended [⟨.plain, [("x", .num 1)]⟩] none (.ref 0)).2.1
      (some "\x7b\"x\":1\x7d") rfl rfl,
    ((normalize_total_amended [⟨.plain, [("x", .num 1)]⟩] none (.ref 0)).2.2.2 rfl
        id (fun _ => none) none []).mpr ⟨some "\x7b\"x\":1\x7d", rfl⟩⟩

/-! ## Theorems about the synthesized message and hint (claim C3) -/

/-- C3 counterexample: an object that merely has `message` and `stack`
fields is not an `Error` instance, yet `parse` passes it through as-is —
its report message is the object's own `message` (not the JSON-serialized
form of the value) and no hint is attached. -/
theorem parse_nonerror_message_counterexample :
    ((parse id (fun _ => none) none []
          [⟨.plain, [("message", .str "m"), ("stack", .str "s")]⟩] none (.ref 0)).map
        fun r => (r.message, r.hint))
      = .ok (.str "m", none)
    ∧ jsonStringify [⟨.plain, [("message", .str "m"), ("stack", .str "s")]⟩] (.ref 0)
        = .ok (some "\x7b\"message\":\"m\",\"stack\":\"s\"\x7d")
    ∧ (JsVal.str "m" ≠ .str "\x7b\"message\":\"m\",\"stack\":\"s\"\x7d")
    ∧ JsClass.isError .plain = false :=
  ⟨rfl, rfl, by decide, rfl⟩

/-- C3 (amended): for every value that is neither an `Error` instance nor
an object with `message` and `stack` fields, and whose JSON serialization
succeeds with a string `s`, the report's message is exactly `s` and its
hint is the fixed non-empty advisory text. -/
theorem parse_nonerror_message_hint (futp : String → String)
    (loader : StackFrame → Option String) (offset : Option Nat) (esParsed : List ESFrame)
    (heap : List JsObj) (synthStack : Option String) (v : JsVal) (s : String)
    (he : isErrorLike heap v = false)
    (hs : jsonStringify heap v = .ok (some s)) :
    ∃ report, parse futp loader offset esParsed heap synthStack v = .ok report
      ∧ report.message = .str s
      ∧ report.hint = some errorHelpText
      ∧ errorHelpText ≠ "" := by
  rcases normalizeError_cases heap synthStack v with ⟨he', _⟩ | ⟨_, heq⟩
  · rw [he] at he'; cases he'
  · have hnorm : normalizeError heap synthStack v = .ok (.synth s synthStack) := by
      rw [heq, hs]; rfl
    have hco : initialSynFrames heap (.synth s synthStack) = .ok [] := rfl
    refine ⟨{ message := messageVal heap (.synth s synthStack),
              name := nameVal heap (.synth s synthStack),
              frames := (enhanceFrames futp loader [] (applyOffset offset esParsed)).1,
              hint := hintOf heap (.synth s synthStack),
              code := codeOf heap (.synth s synthStack),
              cause := causeOf heap (.synth s synthStack),
              stack := stackValOf heap (.synth s synthStack),
              raw := .synth s synthStack },
      by simp only [parse, hnorm, hco, except_bind_ok, except_pure_eq, List.nil_append],
      rfl, ?_, by decide⟩
    show hintOf heap (.synth s synthStack) = some errorHelpText
    rfl

/-- C3 witness: parsing the thrown value `true` yields message `"true"`
and the advisory hint. -/
theorem parse_nonerror_message_witness :
    ∃ report, parse id (fun _ => none) none [] [] none (.bool true) = .ok report
      ∧ report.message = .str "true"
      ∧ report.hint = some errorHelpText
      ∧ errorHelpText ≠ "" :=
  parse_nonerror_message_hint id (fun _ => none) none [] [] none (.bool true) "true" rfl rfl

/-! ## Theorems about the syntax-error special case (claim C5) -/

/-- C5: splitting the first stack line on `:` yields exactly one synthetic
frame — file name = all tokens but the last rejoined, line number = the
last token — when the file name is non-empty and the line number parses,
and zero frames otherwise; and for a `SyntaxError` instance the report's
frames are the enhancement of the synthetic frames followed by the general
extractor's frames, in that order. -/
theorem syntax_error_frames :
    (∀ (st : String) (n : Int),
      jsNumber ((jsSplit ((jsSplit st "\n").headD "") ":").getLastD "") = some n →
      String.intercalate ":" (jsSplit ((jsSplit st "\n").headD "") ":").dropLast ≠ "" →
      parseSyntaxError (some st) = .ok
        [{ fileName := some
              (String.intercalate ":" (jsSplit ((jsSplit st "\n").headD "") ":").dropLast),
           lineNumber := some n,
           source := some ((jsSplit st "\n").headD "") }])
    ∧ (∀ st : String,
        jsNumber ((jsSplit ((jsSplit st "\n").headD "") ":").getLastD "") = none ∨
          String.intercalate ":" (jsSplit ((jsSplit st "\n").headD "") ":").dropLast = "" →
        parseSyntaxError (some st) = .ok [])
    ∧ (∀ (futp : String → String) (loader : StackFrame → Option String)
        (esParsed : List ESFrame) (heap : List JsObj) (synthStack : Option String)
        (a : Nat) (obj : JsObj) (st : String) (sf : List ESFrame) (report : ParsedError),
        heap[a]? = some obj → obj.cls = .syntaxErrorCls →
        obj.lookupField "stack" = some (.str st) →
        parseSyntaxError (some st) = .ok sf →
        parse futp loader none esParsed heap synthStack (.ref a) = .ok report →
        report.frames = (enhanceFrames futp loader [] (sf ++ esParsed)).1) := by
  refine ⟨?_, ?_, ?_⟩
  · intro st n hn hfn
    simp only [parseSyntaxError, hn, ne_eq, hfn, not_false_eq_true, if_true]
  · intro st h
    rcases hjn : jsNumber ((jsSplit ((jsSplit st "\n").headD "") ":").getLastD "")
      with _ | n
    · simp only [parseSyntaxError, hjn]
    · rcases h with h | h
      · rw [hjn] at h; cases h
      · simp only [parseSyntaxError, hjn, ne_eq, h, not_true_eq_false, if_false]
  · intro futp loader esParsed heap synthStack a obj st sf report hobj hcls hstk hsf hp
    have hnorm : normalizeError heap synthStack (.ref a) = .ok (.original a) := by
      simp [normalizeError, hobj, hcls, JsClass.isError]
    have hco : initialSynFrames heap (.original a) = .ok sf := by
      unfold initialSynFrames
      have hsynI : isSyntaxErrorInstance heap (.original a) = true := by
        simp [isSyntaxErrorInstance, hobj, hcls]
      rw [hsynI]
      have hstack : stackStr heap (.original a) = some st := by
        simp [stackStr, errGetField, hobj, hstk]
      show parseSyntaxError (stackStr heap (.original a)) = .ok sf
      rw [hstack]
      exact hsf
    simp only [parse, hnorm, hco, except_bind_ok, except_pure_eq] at hp
    cases hp
    rfl

/-- C5 witness: a syntax error whose stack's first line is
`"/tmp/bad.js:7"` yields the synthetic frame `/tmp/bad.js`, line 7, and it
is the first frame of the parsed report. -/
theorem syntax_error_frames_witness :
    parseSyntaxError (some "/tmp/bad.js:7") = .ok
      [{ fileName := some "/tmp/bad.js", lineNumber := some 7,
         source := some "/tmp/bad.js:7" }]
    ∧ ((parse id (fun _ => none) none []
          [⟨.syntaxErrorCls, [("message", .str "bad"), ("stack", .str "/tmp/bad.js:7")]⟩]
          none (.ref 0)).map fun r => r.frames.map fun f => (f.fileName, f.lineNumber))
        = .ok [(some "/tmp/bad.js", some 7)] :=
  ⟨syntax_error_frames.1 "/tmp/bad.js:7" 7 rfl (by decide), rfl⟩

/-! ## Theorems about source-loader caching (claim C2) -/

/-- Whether the cache holds an entry for identifier `k`. -/
def inCache (cache : List (String × String)) (k : String) : Bool :=
  (cache.find? (fun e => e.1 = k)).isSome

/-- Shape of the loader-invocation trace per identifier: an identifier
already cached is never looked up again; an uncached identifier sees a
(possibly empty) run of failed invocations, optionally terminated by one
successful invocation after which it is cached and never invoked again. -/
theorem enhance_trace_filter (futp : String → String) (loader : StackFrame → Option String)
    (frames : List ESFrame) :
    ∀ (cache : List (String × String)) (k : String),
      (inCache cache k = true →
        ((enhanceFrames futp loader cache frames).2.2.filter (fun e => e.1 = k)) = [])
      ∧ (inCache cache k = false →
        ∃ m, ((enhanceFrames futp loader cache frames).2.2.filter (fun e => e.1 = k))
            = List.replicate m (k, false)
          ∨ ((enhanceFrames futp loader cache frames).2.2.filter (fun e => e.1 = k))
            = List.replicate m (k, false) ++ [(k, true)]) := by
  induction frames with
  | nil =>
    intro cache k
    exact ⟨fun _ => rfl, fun _ => ⟨0, Or.inl rfl⟩⟩
  | cons f rest ih =>
    intro cache k
    simp only [enhanceFrames]
    by_cases hf : f.fileName.getD "" = ""
    · rw [if_pos hf]
      exact ih cache k
    · rw [if_neg hf]
      simp only [getSource, classifyFrame_fileName, Option.getD_some]
      set fn := normalizeFileName futp (f.fileName.getD "") with hfn
      cases hfind : cache.find? (fun e => e.1 = fn) with
      | some e =>
        simp only [List.nil_append]
        exact ih cache k
      | none =>
        cases hload : loader (classifyFrame futp f) with
        | some contents =>
          simp only [List.singleton_append]
          constructor
          · intro hk
            have hne : fn ≠ k := by
              intro hkey
              rw [hkey] at hfind
              simp [inCache, hfind] at hk
            rw [List.filter_cons_of_neg (by simpa using hne)]
            have hk' : inCache ((fn, contents) :: cache) k = true := by
              simp only [inCache, List.find?_cons]
              rcases hcond : decide ((fn, contents).1 = k) with _ | _
              · simpa [inCache, hcond] using hk
              · simp
            exact (ih _ k).1 hk'
          · intro hk
            by_cases hkey : fn = k
            · rw [List.filter_cons_of_pos (by simpa using hkey)]
              have hk' : inCache ((fn, contents) :: cache) k = true := by
                simp [inCache, List.find?_cons, hkey]
              rw [(ih _ k).1 hk', ← hfn, hkey]
              exact ⟨0, Or.inr rfl⟩
            · rw [List.filter_cons_of_neg (by simpa using hkey)]
              have hk' : inCache ((fn, contents) :: cache) k = false := by
                simpa [inCache, List.find?_cons, hkey] using hk
              exact (ih _ k).2 hk'
        | none =>
          simp only [List.singleton_append]
          constructor
          · intro hk
            have hne : fn ≠ k := by
              intro hkey
              rw [hkey] at hfind
              simp [inCache, hfind] at hk
            rw [List.filter_cons_of_neg (by simpa using hne)]
            exact (ih cache k).1 hk
          · intro hk
            by_cases hkey : fn = k
            · rw [List.filter_cons_of_pos (by simpa using hkey)]
              rcases (ih cache k).2 hk with ⟨m, hm | hm⟩
              · rw [hm, ← hfn, hkey]
                exact ⟨m + 1, Or.inl rfl⟩
              · rw [hm, ← hfn, hkey]
                exact ⟨m + 1, Or.inr rfl⟩
            · rw [List.filter_cons_of_neg (by simpa using hkey)]
              exact (ih cache k).2 hk

/-- C2 counterexample: with a loader that reports absence (e.g. the
filesystem loader on a missing file), two lookups of the same identifier
within one parse invoke the loader twice — a failed load is not cached, so
the loader is not invoked "at most once per identifier". -/
theorem loader_invocation_counterexample :
    (enhanceFrames id (fun _ => none) []
        [{ fileName := some "/a.js" }, { fileName := some "/a.js" }]).2.2
      = [("/a.js", false), ("/a.js", false)] := rfl

/-- C2 (amended): per identifier, the loader-invocation trace of any run of
the enhancement pipeline from an empty cache is a run of failed invocations
optionally ending in a single successful one: a successful load is cached
permanently and its identifier is never looked up again, while a failed
load caches nothing and the next lookup for the identifier re-invokes the
loader. -/
theorem loader_invocation_per_identifier (futp : String → String)
    (loader : StackFrame → Option String) (frames : List ESFrame) (k : String) :
    ∃ m, ((enhanceFrames futp loader [] frames).2.2.filter (fun e => e.1 = k))
        = List.replicate m (k, false)
      ∨ ((enhanceFrames futp loader [] frames).2.2.filter (fun e => e.1 = k))
        = List.replicate m (k, false) ++ [(k, true)] :=
  (enhance_trace_filter futp loader frames [] k).2 rfl

/-! ## Theorems about when `source` is populated (claim C6) -/

/-- C6 counterexample: `#enhanceFrames` consults `#getSource` for every
frame with a file name, and `#getSource` itself never checks the frame's
classification — a custom registered loader that returns contents for an
`http` frame makes `parse` populate `source` with `fileType = http`. -/
theorem source_invariant_counterexample :
    ((enhanceFrames id (fun _ => some "l1\nl2") []
          [{ fileName := some "http://h/a.js", lineNumber := some 1 }]).1.map
        fun fr => (fr.fileType, fr.type, fr.source.isSome))
      = [(some .http, some .app, true)]
    ∧ ((parse id (fun _ => some "l1\nl2") none
          [{ fileName := some "http://h/a.js", lineNumber := some 1 }] [] none
          (.bool true)).map fun r => r.frames.map fun fr => (fr.fileType, fr.source.isSome))
        = .ok [(some .http, true)] :=
  ⟨rfl, rfl⟩

/-- A successful default-loader read certifies the frame's classification:
`fsSourceLoader` returns contents only for `fs`-type, non-native frames. -/
theorem fsSourceLoader_some (fs : String → Option String) (frame : StackFrame)
    (contents : String) (h : fsSourceLoader fs frame = some contents) :
    frame.fileType = some .fs ∧ frame.type ≠ some .native := by
  unfold fsSourceLoader at h
  split at h
  · cases h
  · split at h
    · cases h
    · split at h
      · cases h
      · split at h
        · cases h
        · rename_i h2 h3
          exact ⟨not_ne_iff.mp h2, h3⟩

/-- A frame whose raw file name is missing or empty is passed through with
no classification and no source, at the same position. -/
theorem enhance_noname (futp : String → String) (loader : StackFrame → Option String)
    (frames : List ESFrame) :
    ∀ (cache : List (String × String)) (i : Nat) (es : ESFrame),
      frames[i]? = some es → es.fileName.getD "" = "" →
      ∃ f, (enhanceFrames futp loader cache frames).1[i]? = some f
        ∧ f.type = none ∧ f.fileType = none ∧ f.source = none
        ∧ f.fileName = es.fileName := by
  induction frames with
  | nil => intro cache i es h _; simp at h
  | cons f rest ih =>
    intro cache i es hget hname
    simp only [enhanceFrames]
    by_cases hf : f.fileName.getD "" = ""
    · rw [if_pos hf]
      match i with
      | 0 =>
        simp only [List.getElem?_cons_zero, Option.some.injEq] at hget
        subst hget
        exact ⟨baseFrame f, List.getElem?_cons_zero, rfl, rfl, rfl, rfl⟩
      | i + 1 =>
        simp only [List.getElem?_cons_succ] at hget
        simp only [List.getElem?_cons_succ]
        exact ih cache i es hget hname
    · rw [if_neg hf]
      match i with
      | 0 =>
        simp only [List.getElem?_cons_zero, Option.some.injEq] at hget
        subst hget
        exact absurd hname hf
      | i + 1 =>
        simp only [List.getElem?_cons_succ] at hget
        simp only [List.getElem?_cons_succ]
        exact ih _ i es hget hname

theorem enhance_default_loader_inv (futp : String → String) (fs : String → Option String)
    (frames : List ESFrame) :
    ∀ cache : List (String × String),
      (∀ e ∈ cache, getFrameSourceType e.1 = .fs ∧ getFrameType e.1 ≠ .native) →
      (∀ f ∈ (enhanceFrames futp (fsSourceLoader fs) cache frames).1,
          f.source ≠ none → f.fileType = some .fs ∧ f.type ≠ some .native)
      ∧ ∀ e ∈ (enhanceFrames futp (fsSourceLoader fs) cache frames).2.1,
          getFrameSourceType e.1 = .fs ∧ getFrameType e.1 ≠ .native := by
  induction frames with
  | nil =>
    intro cache hInv
    exact ⟨by simp [enhanceFrames], hInv⟩
  | cons f rest ih =>
    intro cache hInv
    simp only [enhanceFrames]
    by_cases hf : f.fileName.getD "" = ""
    · rw [if_pos hf]
      refine ⟨?_, (ih cache hInv).2⟩
      intro fr hfr hsrc
      rcases List.mem_cons.mp hfr with rfl | hfr'
      · exact absurd rfl hsrc
      · exact (ih cache hInv).1 fr hfr' hsrc
    · rw [if_neg hf]
      simp only [getSource, classifyFrame_fileName, Option.getD_some]
      cases hfind : cache.find? (fun e => e.1 = normalizeFileName futp (f.fileName.getD "")) with
      | some e =>
        have hmem := List.mem_of_find?_eq_some hfind
        have hpred : e.1 = normalizeFileName futp (f.fileName.getD "") := by
          have := List.find?_some hfind
          simpa using this
        have hce := hInv e hmem
        rw [hpred] at hce
        refine ⟨?_, (ih cache hInv).2⟩
        intro fr hfr hsrc
        rcases List.mem_cons.mp hfr with rfl | hfr'
        · constructor
          · show some (getFrameSourceType (normalizeFileName futp (f.fileName.getD ""))) = some .fs
            rw [hce.1]
          · show some (getFrameType (normalizeFileName futp (f.fileName.getD ""))) ≠ some .native
            intro hcon
            exact hce.2 (Option.some.inj hcon)
        · exact (ih cache hInv).1 fr hfr' hsrc
      | none =>
        cases hload : fsSourceLoader fs (classifyFrame futp f) with
        | some contents =>
          have hcls : getFrameSourceType (normalizeFileName futp (f.fileName.getD "")) = .fs
              ∧ getFrameType (normalizeFileName futp (f.fileName.getD "")) ≠ .native := by
            obtain ⟨hft, hty⟩ := fsSourceLoader_some fs _ contents hload
            have hft' : some (getFrameSourceType (normalizeFileName futp (f.fileName.getD "")))
                = some FileType.fs := hft
            refine ⟨Option.some.inj hft', ?_⟩
            intro hcon
            exact hty (show (classifyFrame futp f).type = some .native from by
              show some (getFrameType (normalizeFileName futp (f.fileName.getD "")))
                = some .native
              rw [hcon])
          have hInv' : ∀ e ∈ (normalizeFileName futp (f.fileName.getD ""), contents) :: cache,
              getFrameSourceType e.1 = .fs ∧ getFrameType e.1 ≠ .native := by
            intro e he
            rcases List.mem_cons.mp he with rfl | he'
            · exact hcls
            · exact hInv e he'
          refine ⟨?_, (ih _ hInv').2⟩
          intro fr hfr hsrc
          rcases List.mem_cons.mp hfr with rfl | hfr'
          · constructor
            · show some (getFrameSourceType (normalizeFileName futp (f.fileName.getD "")))
                = some .fs
              rw [hcls.1]
            · show some (getFrameType (normalizeFileName futp (f.fileName.getD "")))
                ≠ some .native
              intro hcon
              exact hcls.2 (Option.some.inj hcon)
          · exact (ih _ hInv').1 fr hfr' hsrc
        | none =>
          refine ⟨?_, (ih cache hInv).2⟩
          intro fr hfr hsrc
          rcases List.mem_cons.mp hfr with rfl | hfr'
          · exact absurd rfl hsrc
          · exact (ih cache hInv).1 fr hfr' hsrc

/-- C6 (amended): with the default filesystem loader — which is where the
classification filter lives — every enhanced frame's `source` is populated
only when `fileType = fs` and `type ≠ native`; a raw frame without a
(truthy) file name is passed through with no classification and no source;
and every report's frames are produced by this enhancement pipeline from an
empty cache. Under an arbitrary registered loader the restriction does not
hold (see the counterexample). -/
theorem source_only_fs_default (futp : String → String) (fs : String → Option String) :
    (∀ (cache : List (String × String)) (frames : List ESFrame),
      (∀ e ∈ cache, getFrameSourceType e.1 = .fs ∧ getFrameType e.1 ≠ .native) →
        ∀ f ∈ (enhanceFrames futp (fsSourceLoader fs) cache frames).1,
          f.source ≠ none → f.fileType = some .fs ∧ f.type ≠ some .native)
    ∧ (∀ (cache : List (String × String)) (frames : List ESFrame) (i : Nat) (es : ESFrame),
        frames[i]? = some es → es.fileName.getD "" = "" →
          ∃ f, (enhanceFrames futp (fsSourceLoader fs) cache frames).1[i]? = some f
            ∧ f.type = none ∧ f.fileType = none ∧ f.source = none
            ∧ f.fileName = es.fileName)
    ∧ (∀ (loader : StackFrame → Option String) (offset : Option Nat)
        (esParsed : List ESFrame) (heap : List JsObj) (synthStack : Option String)
        (v : JsVal) (report : ParsedError),
        parse futp loader offset esParsed heap synthStack v = .ok report →
          ∃ frames0, report.frames = (enhanceFrames futp loader [] frames0).1) := by
  refine ⟨?_, ?_, ?_⟩
  · intro cache frames hInv
    exact (enhance_default_loader_inv futp fs frames cache hInv).1
  · intro cache frames i es hget hname
    exact enhance_noname futp (fsSourceLoader fs) frames cache i es hget hname
  · intro loader offset esParsed heap synthStack v report hp
    cases hn : normalizeError heap synthStack v with
    | error e =>
      simp only [parse, hn, except_bind_error] at hp
      cases hp
    | ok ne =>
      cases hco : initialSynFrames heap ne with
      | error e =>
        simp only [parse, hn, hco, except_bind_ok, except_bind_error] at hp
        cases hp
      | ok sf =>
        simp only [parse, hn, hco, except_bind_ok, except_pure_eq] at hp
        cases hp
        exact ⟨_, rfl⟩

/-- C6 witness: with the default loader over a stub filesystem, a `node:`
frame gets no source while an `fs`-type app frame does; the invariant holds
on the resulting frames via the amended theorem. -/
theorem source_only_fs_default_witness :
    (∀ f ∈ (enhanceFrames id (fsSourceLoader (fun _ => some "x\ny")) []
        [{ fileName := some "node:fs" }, { fileName := some "/b.js", lineNumber := some 1 }]).1,
      f.source ≠ none → f.fileType = some .fs ∧ f.type ≠ some .native)
    ∧ ((enhanceFrames id (fsSourceLoader (fun _ => some "x\ny")) []
        [{ fileName := some "node:fs" }, { fileName := some "/b.js", lineNumber := some 1 }]).1.map
          fun fr => (fr.type, fr.source.isSome))
      = [(some .native, false), (some .app, true)] :=
  ⟨(source_only_fs_default id (fun _ => some "x\ny")).1 []
      [{ fileName := some "node:fs" }, { fileName := some "/b.js", lineNumber := some 1 }]
      (by intro e he; cases he),
    rfl⟩

end YouchCore
